import Mathlib

/-!
Verification development for the MCPP (Model Context Privacy Protocol) VSCode
client: a shallow embedding of the placeholder/consent/routing engine found in
`client/src/chatView.ts` and `client/src/mcpClient.ts`, together with theorems
settling the behavioural claims of the specification.

Strings from the TypeScript source are embedded as `List Char`; JavaScript
objects used as ordered string-keyed maps are embedded as association lists in
key-insertion order (all keys in play are non-numeric, so JavaScript preserves
insertion order).
-/

namespace Mcpp

/-! ### Generic association-list helpers (JS object / Map semantics) -/

/-- Lookup in an association list; mirrors `obj[key]` / `Map.get`. -/
def lookupA {α β : Type} [DecidableEq α] : List (α × β) → α → Option β
  | [], _ => none
  | (k, v) :: rest, key => if k = key then some v else lookupA rest key

/-- Insert-or-replace; mirrors `obj[key] = value` / `Map.set` (existing key
updated in place, new key appended at the end, preserving insertion order). -/
def insertA {α β : Type} [DecidableEq α] : List (α × β) → α → β → List (α × β)
  | [], key, v => [(key, v)]
  | (k, w) :: rest, key, v =>
    if k = key then (k, v) :: rest else (k, w) :: insertA rest key v

/-- Append `p` to the list stored under `k`, creating the entry if absent;
mirrors `if (!obj[k]) obj[k] = []; obj[k].push(p)` from
`groupPlaceholdersByServer` / `handleCallTool`. -/
def addToGroup {α β : Type} [DecidableEq α] : List (α × List β) → α → β → List (α × List β)
  | [], k, p => [(k, [p])]
  | (k', ps) :: rest, k, p =>
    if k' = k then (k', ps ++ [p]) :: rest else (k', ps) :: addToGroup rest k p

/-- Split a character list at the first occurrence of `c`, returning the parts
before and after it. -/
def splitAtFirst (c : Char) : List Char → Option (List Char × List Char)
  | [] => none
  | a :: rest =>
    if a = c then some ([], rest)
    else
      match splitAtFirst c rest with
      | some (x, y) => some (a :: x, y)
      | none => none

/-- Boolean membership of a character, used to state the character classes of
the source's regular expressions. -/
def hasChar (c : Char) (l : List Char) : Bool :=
  l.any (fun x => x = c)

/-- Boolean substring containment; mirrors JavaScript `String.includes`. -/
def containsSeq (needle : List Char) : List Char → Bool
  | [] => needle.isEmpty
  | c :: rest => needle.isPrefixOf (c :: rest) || containsSeq needle rest

/-! ### PlaceholderCodec: server-key prefix injection and stripping

The wire/model placeholder conversions live inline in the source:
prefix *injection* in `chatView.ts` `handleCallTool` (lines 334-346) and
prefix *stripping* in `mcpClient.ts` `McpClient.callTool` (lines 640-654).
-/

/-- Wrap a placeholder body in braces: the literal `{body}` form. -/
def wrapBraces (body : List Char) : List Char :=
  '{' :: (body ++ ['}'])

/-- Strip one leading `{` and one trailing `}` when the string is so
delimited, returning the interior; `none` otherwise. Support for the
anchored regexes `^\x7b...\x7d$` of the source. -/
def stripOuterBraces (s : List Char) : Option (List Char) :=
  match s with
  | '{' :: rest => if rest.getLast? = some '}' then some rest.dropLast else none
  | _ => none

/-- Parse the *prefixed* placeholder form: the source regex
`^\x7b([^:\x7d]+):([^\x7d]+)\x7d$` (a brace-free, colon-free, non-empty server
key, a colon, then a non-empty brace-free remainder). Returns
`(serverKey, body)` on a match. -/
def matchPrefixed (s : List Char) : Option (List Char × List Char) :=
  match stripOuterBraces s with
  | none => none
  | some interior =>
    if hasChar '}' interior then none
    else
      match splitAtFirst ':' interior with
      | none => none
      | some (a, b) => if a ≠ [] ∧ b ≠ [] then some (a, b) else none

/-- Does the string match the prefixed placeholder regex? -/
def isPrefixedPlaceholder (s : List Char) : Bool :=
  (matchPrefixed s).isSome

/-- Does the string match the simple placeholder regex `^\x7b[^\x7d]+\x7d$`
(non-empty brace-free interior)? -/
def isSimplePlaceholder (s : List Char) : Bool :=
  match stripOuterBraces s with
  | none => false
  | some interior => (decide (interior ≠ [])) && !(hasChar '}' interior)

/-- Embed `value.replace(/^\x7b|\x7d$/g, '')`: drop one leading `{` and one
trailing `}` when present. -/
def stripBraceEnds (s : List Char) : List Char :=
  let s1 := match s with
    | '{' :: rest => rest
    | other => other
  if s1.getLast? = some '}' then s1.dropLast else s1

/-- Embed the prefix-injection step of `handleCallTool` (chatView.ts
lines 334-346): on a simple placeholder without a server-key prefix the owning
server's key is injected, producing the wire form
`{serverKey:body}`; prefixed or non-placeholder values pass through. -/
def toWireForm (value : List Char) (serverKey : List Char) : List Char :=
  if isPrefixedPlaceholder value then value
  else if isSimplePlaceholder value then
    wrapBraces (serverKey ++ [':'] ++ stripBraceEnds value)
  else value

/-- Embed the prefix-stripping step of `McpClient.callTool` (mcpClient.ts
lines 640-654): a value matching the prefixed placeholder regex is rewritten
to `{body}` with the server key removed; anything else passes through. -/
def toModelForm (value : List Char) : List Char :=
  match matchPrefixed value with
  | some (_, b) => wrapBraces b
  | none => value

/-! ### Placeholder extraction

Embeds `extractPlaceholdersFromText` (chatView.ts lines 1017-1031): a global
scan for `\x7b([^\x7d]+)\x7d` followed by the heuristic filter
`placeholder.includes('call_') || /^[^.]+\.\d+\.[^.]+/.test(placeholder)`.
-/

/-- Fuel-bounded scan for the global regex `\x7b([^\x7d]+)\x7d`. Every step
consumes at least one character while the fuel drops by exactly one, so a fuel
of one more than the text length never runs out. -/
def extractBracedAux : Nat → List Char → List (List Char)
  | 0, _ => []
  | fuel + 1, s =>
    match s with
    | [] => []
    | c :: cs =>
      if c = '{' then
        match splitAtFirst '}' cs with
        | some (content, rem) =>
          if content = [] then extractBracedAux fuel cs
          else content :: extractBracedAux fuel rem
        | none => []
      else extractBracedAux fuel cs

/-- Embed the repeated scan of the global regex `\x7b([^\x7d]+)\x7d`: the
non-overlapping, left-to-right brace-delimited groups of the text, in order of
first occurrence. -/
def extractBraced (s : List Char) : List (List Char) :=
  extractBracedAux (s.length + 1) s

/-- Embed the prefix regex `^[^.]+\.\d+\.[^.]+` of the extraction filter: a
non-empty dot-free identifier, a dot, one or more digits, a dot, then at least
one further non-dot character. -/
def matchesRowColShape (p : List Char) : Bool :=
  match splitAtFirst '.' p with
  | none => false
  | some (a, rest) =>
    if a = [] then false
    else
      match splitAtFirst '.' rest with
      | none => false
      | some (d, c) =>
        (decide (d ≠ [])) && d.all Char.isDigit &&
          (match c with
           | [] => false
           | ch :: _ => decide (ch ≠ '.'))

/-- Embed the candidate filter of `extractPlaceholdersFromText`. -/
def looksLikePlaceholder (p : List Char) : Bool :=
  containsSeq ("call_".data) p || matchesRowColShape p

/-- Embed `extractPlaceholdersFromText` (chatView.ts lines 1017-1031). -/
def extractPlaceholdersFromText (text : List Char) : List (List Char) :=
  (extractBraced text).filter looksLikePlaceholder

/-! ### Tool-call id derivation and grouping by server

Embeds `extractToolCallIdFromPlaceholder` (chatView.ts lines 1136-1151) and
`groupPlaceholdersByServer` (chatView.ts lines 1093-1130). The ledger is the
`_toolCallIdToServerKey` map; `availableServers` is
`getAvailableServerKeys()`, the keys of the `_mcpClients` map in creation
order (chatView.ts lines 1211-1213).
-/

/-- Embed the anchored regex `^([^.]+)\.\d+\.[^.]+$`: identifier, dot, digits,
dot, dot-free column name, with nothing following. Returns the identifier. -/
def matchIdRowColAnchored (p : List Char) : Option (List Char) :=
  match splitAtFirst '.' p with
  | none => none
  | some (a, rest) =>
    if a = [] then none
    else
      match splitAtFirst '.' rest with
      | none => none
      | some (d, c) =>
        if (decide (d ≠ [])) && d.all Char.isDigit && (decide (c ≠ [])) &&
            !(hasChar '.' c)
        then some a else none

/-- Embed `extractToolCallIdFromPlaceholder` (chatView.ts lines 1136-1151):
first the prefix regex `^(call_[^.]+)`, then the anchored
`^([^.]+)\.\d+\.[^.]+$` fallback; `none` when neither matches. -/
def extractToolCallIdFromPlaceholder (p : List Char) : Option (List Char) :=
  if ("call_".data).isPrefixOf p then
    let run := (p.drop 5).takeWhile (fun c => c ≠ '.')
    if run ≠ [] then some ("call_".data ++ run)
    else matchIdRowColAnchored p
  else matchIdRowColAnchored p

/-- Embed one iteration of the grouping loop of `groupPlaceholdersByServer`:
derive the tool-call id; on a ledger hit group under the owning server; on a
miss fall back to the first available server when one exists, otherwise drop;
drop also when no tool-call id can be derived. -/
def routePlaceholder (ledger : List (List Char × List Char))
    (availableServers : List (List Char))
    (groups : List (List Char × List (List Char))) (p : List Char) :
    List (List Char × List (List Char)) :=
  match extractToolCallIdFromPlaceholder p with
  | none => groups
  | some toolCallId =>
    match lookupA ledger toolCallId with
    | some serverKey => addToGroup groups serverKey p
    | none =>
      match availableServers with
      | [] => groups
      | fallbackServer :: _ => addToGroup groups fallbackServer p

/-- Embed `groupPlaceholdersByServer` (chatView.ts lines 1093-1130). -/
def groupPlaceholdersByServer (ledger : List (List Char × List Char))
    (availableServers : List (List Char)) (placeholders : List (List Char)) :
    List (List Char × List (List Char)) :=
  placeholders.foldl (routePlaceholder ledger availableServers) []

/-! ### Server router

Embeds `getClient` (chatView.ts lines 160-181) at the level of the chosen
server key: `servers` is the configured-server object in key order; an omitted,
empty (JavaScript-falsy) or unknown key falls back to the first configured
key. -/

/-- Embed the server-key choice of `getClient`: `serverKey && servers[serverKey]
? serverKey : Object.keys(servers)[0]`, with `none` when no server is
configured. -/
def getClientKey (servers : List (List Char × List Char))
    (serverKey : Option (List Char)) : Option (List Char) :=
  match servers with
  | [] => none
  | (firstKey, _) :: _ =>
    match serverKey with
    | some k => if k ≠ [] ∧ (lookupA servers k).isSome then some k else some firstKey
    | none => some firstKey

/-! ### Decimal rendering of numbers

Embeds the template literal `` `placeholder_${index}` `` of
`resolvePlaceholdersFromServer`: a JavaScript number index is rendered in
decimal. -/

/-- The decimal digit character for `n < 10` (`'*'` is an unreachable
default). -/
def digitChar : Nat → Char
  | 0 => '0'
  | 1 => '1'
  | 2 => '2'
  | 3 => '3'
  | 4 => '4'
  | 5 => '5'
  | 6 => '6'
  | 7 => '7'
  | 8 => '8'
  | 9 => '9'
  | _ => '*'

/-- Fuel-bounded decimal rendering; dividing by ten at each step, a fuel of
one more than the number itself never runs out. -/
def natReprAux : Nat → Nat → List Char
  | 0, _ => []
  | fuel + 1, n =>
    if n < 10 then [digitChar n]
    else natReprAux fuel (n / 10) ++ [digitChar (n % 10)]

/-- Decimal rendering of a natural number, most significant digit first. -/
def natRepr (n : Nat) : List Char :=
  natReprAux (n + 1) n

/-- Numeric value of a digit character. -/
def dval (c : Char) : Nat := c.toNat - 48

/-- Decode a decimal digit string back to its value (left inverse used to show
`natRepr` is injective). -/
def decodeDigits (l : List Char) : Nat :=
  l.foldl (fun acc c => acc * 10 + dval c) 0

/-! ### Batched per-server resolution

Embeds `resolvePlaceholdersFromServer` (chatView.ts lines 1156-1206) and the
single JSON-RPC request it issues through
`McpClient.resolvePlaceholdersWithAccessControl` (mcpClient.ts lines 893-927).
The transport is abstracted as a function from the addressed server key and
the batch payload to an optional reply map (`none` covers a transport error,
an error response, and a non-object `resolved_data`, all of which the source
turns into `null`). -/

/-- The batch key `` `placeholder_${index}` `` tagging the `index`-th
placeholder of a batch. -/
def batchKey (i : Nat) : List Char :=
  ("placeholder_".data) ++ natRepr i

/-- Embed the batch payload built by `resolvePlaceholdersFromServer`:
`batchData[`placeholder_${index}`] = `{placeholder}``, one entry per
placeholder, in order. -/
def batchDataFor (placeholders : List (List Char)) : List (List Char × List Char) :=
  placeholders.enum.map (fun ip => (batchKey ip.1, wrapBraces ip.2))

/-- Embed `resolvePlaceholdersFromServer` (chatView.ts lines 1156-1206):
choose the client via `getClient`, send the whole batch in one request, and
map the reply's `placeholder_i` keys back to the original placeholder texts,
keeping only keys present in the reply. -/
def resolvePlaceholdersFromServer
    (config : List (List Char × List Char))
    (transport : List Char → List (List Char × List Char) →
      Option (List (List Char × List Char)))
    (serverKey : List Char) (placeholders : List (List Char)) :
    Option (List (List Char × List Char)) :=
  match getClientKey config (some serverKey) with
  | none => none
  | some clientKey =>
    match transport clientKey (batchDataFor placeholders) with
    | none => none
    | some resolvedData =>
      some (placeholders.enum.filterMap (fun ip =>
        match lookupA resolvedData (batchKey ip.1) with
        | some v => some (ip.2, v)
        | none => none))

/-- Embed `Object.assign(target, source)`: each key of `source` is written
into `target` in order. -/
def objAssign (target source : List (List Char × List Char)) :
    List (List Char × List Char) :=
  source.foldl (fun acc kv => insertA acc kv.1 kv.2) target

/-- Embed the `Promise.allSettled` merge loop of
`resolveMessagePlaceholdersEfficiently` (chatView.ts lines 1057-1068):
fulfilled non-null per-server maps are merged with `Object.assign`; failed or
null results are skipped. -/
def mergeSettledResults
    (results : List (Option (List (List Char × List Char)))) :
    List (List Char × List Char) :=
  results.foldl (fun acc r =>
    match r with
    | some m => objAssign acc m
    | none => acc) []

/-- The merged resolved-values map of one resolution attempt: group the
placeholders by server, resolve each group with one batched call, and merge
the per-server results. -/
def attemptResolvedValues
    (config : List (List Char × List Char))
    (transport : List Char → List (List Char × List Char) →
      Option (List (List Char × List Char)))
    (ledger : List (List Char × List Char))
    (availableServers : List (List Char))
    (placeholders : List (List Char)) : List (List Char × List Char) :=
  mergeSettledResults
    ((groupPlaceholdersByServer ledger availableServers placeholders).map
      (fun e => resolvePlaceholdersFromServer config transport e.1 e.2))

/-- Fuel-bounded literal global replacement. Every step consumes at least one
character of the subject while the fuel drops by exactly one, so a fuel of one
more than the subject length never runs out. -/
def replaceAllAux (pat repl : List Char) : Nat → List Char → List Char
  | 0, s => s
  | fuel + 1, s =>
    match s with
    | [] => []
    | c :: rest =>
      if pat ≠ [] ∧ pat.isPrefixOf (c :: rest) then
        repl ++ replaceAllAux pat repl fuel ((c :: rest).drop pat.length)
      else c :: replaceAllAux pat repl fuel rest

/-- Embed `message.replace(new RegExp(escapeRegex(pattern), 'g'), value)`:
replace every non-overlapping occurrence of the literal pattern, left to
right, without rescanning the replacement. -/
def replaceAll (pat repl s : List Char) : List Char :=
  replaceAllAux pat repl (s.length + 1) s

/-- Embed the substitution loop of `resolveMessagePlaceholdersEfficiently`
(chatView.ts lines 1072-1083): for each extracted placeholder, when a resolved
value exists, replace every occurrence of `{placeholder}` in the running
message. -/
def substituteAll (message : List Char) (placeholders : List (List Char))
    (resolvedValues : List (List Char × List Char)) : List Char :=
  placeholders.foldl (fun acc p =>
    match lookupA resolvedValues p with
    | some v => replaceAll (wrapBraces p) v acc
    | none => acc) message

/-- Embed `resolveMessagePlaceholdersEfficiently` (chatView.ts
lines 1037-1088): group, fan out one batched request per server, merge the
settled results and substitute; when no placeholder maps to any server the
original message is returned unchanged. -/
def resolveMessagePlaceholdersEfficiently
    (config : List (List Char × List Char))
    (transport : List Char → List (List Char × List Char) →
      Option (List (List Char × List Char)))
    (ledger : List (List Char × List Char))
    (availableServers : List (List Char))
    (message : List Char) (placeholders : List (List Char)) : List Char :=
  let groups := groupPlaceholdersByServer ledger availableServers placeholders
  if groups.isEmpty then message
  else
    substituteAll message placeholders
      (attemptResolvedValues config transport ledger availableServers placeholders)

/-- Embed `handlePlaceholderMessageAction` (chatView.ts lines 794-829): with
no extracted placeholder the message is shown as-is; otherwise the resolved
message is shown, except that a resolved message *textually identical* to the
original is replaced by the caller-supplied fallback message. Returns the text
posted to the webview. -/
def handlePlaceholderMessage
    (config : List (List Char × List Char))
    (transport : List Char → List (List Char × List Char) →
      Option (List (List Char × List Char)))
    (ledger : List (List Char × List Char))
    (availableServers : List (List Char))
    (message fallbackMessage : List Char) : List Char :=
  let placeholders := extractPlaceholdersFromText message
  if placeholders.isEmpty then message
  else
    let resolvedMessage :=
      resolveMessagePlaceholdersEfficiently config transport ledger
        availableServers message placeholders
    if resolvedMessage = message then fallbackMessage else resolvedMessage

/-- The batched requests issued by one resolution attempt: one per grouped
server that resolves to a client, addressed to the chosen client key and
carrying the whole group's batch payload. -/
def issuedBatchRequests
    (config : List (List Char × List Char))
    (ledger : List (List Char × List Char))
    (availableServers : List (List Char))
    (placeholders : List (List Char)) :
    List (List Char × List (List Char × List Char)) :=
  (groupPlaceholdersByServer ledger availableServers placeholders).filterMap
    (fun e =>
      match getClientKey config (some e.1) with
      | none => none
      | some clientKey => some (clientKey, batchDataFor e.2))

/-! ### Usage contexts and the consent flow

Embeds `McpClient.createUsageContext` (mcpClient.ts lines 978-999) at the level
of its access-control content: the `data_usage` level, target type,
destination and purpose. The `requester` block (constant host id
`vscode-mcpp-client` plus wall-clock session id and timestamp) is
environment-dependent metadata and is not modelled.

The consent flow embeds `handleConsentFlow` (chatView.ts lines 1295-1357)
together with the `consentResponse` webview-message handler (chatView.ts
lines 139-149): a pending consent is stored under its `request_id`; a user
decision, if the pending entry is still present, removes it and runs the
stored `resolve` callback, which first calls `McpClient.provideConsent`
(mcpClient.ts lines 937-973) and, on approval, retries the resolution once
with a freshly built `('display', 'client', 'user_interface')` usage context;
the timer armed for `timeout_seconds > 0` (chatView.ts lines 1346-1355), when
it fires with the entry still pending, removes the entry and rejects the
caller's promise with `Error('Consent request timed out')` without issuing any
server call. The extension arms its timer before the consent prompt is even
posted to the webview, while the webview's own auto-deny timer
(`showConsentDialog`, webview script lines 378-385) is armed only on receipt
and has the same duration, so on a run with no user decision the extension
timer fires first and the webview's late auto-deny finds no pending entry. -/

/-- The `data_usage` levels of a usage context. -/
inductive DataUsage
  | display
  | process
  | store
  | transfer
deriving DecidableEq

/-- The target types of a usage context. -/
inductive TargetType
  | client
  | server
  | servers
  | llm
  | all
deriving DecidableEq

/-- The access-control content of a usage context built by
`createUsageContext`. -/
structure ModelUsageContext where
  data_usage : DataUsage
  target_type : TargetType
  destination : List Char
  purpose : Option (List Char)
deriving DecidableEq

/-- Embed `McpClient.createUsageContext` (modulo the unmodelled `requester`
metadata block). -/
def createUsageContext (dataUsage : DataUsage) (targetType : TargetType)
    (destination : List Char) (purpose : Option (List Char)) : ModelUsageContext :=
  { data_usage := dataUsage
    target_type := targetType
    destination := destination
    purpose := purpose }

/-- The JSON-RPC calls the consent flow can issue to the owning server. -/
inductive RpcCall
  | provideConsent (requestId : List Char) (approved : Bool) (rememberChoice : Bool)
  | resolvePlaceholders (data : List Char) (ctx : ModelUsageContext)
      (toolName : Option (List Char))
deriving DecidableEq

/-- Embed the single resolution request issued by `resolveWithAccessControl`
(chatView.ts lines 1246-1250): `resolvePlaceholdersWithAccessControl(data,
createUsageContext(dataUsage, targetType, destination, purpose), toolName)`. -/
def resolveWithAccessControlCall (data : List Char) (dataUsage : DataUsage)
    (targetType : TargetType) (destination : List Char)
    (purpose : Option (List Char)) (toolName : Option (List Char)) : RpcCall :=
  RpcCall.resolvePlaceholders data
    (createUsageContext dataUsage targetType destination purpose) toolName

/-- How the caller's pending promise is settled by the consent flow. -/
inductive ConsentOutcome
  | resolvedData (d : List Char)
  | deniedByUser
  | timedOut
  | otherError
deriving DecidableEq

/-- State of one pending consent: whether the `_pendingConsents` entry is
still present, whether a timeout timer was armed, and how (if at all) the
caller's promise has been settled. -/
structure ConsentFlowState where
  pendingPresent : Bool
  timerArmed : Bool
  outcome : Option ConsentOutcome
deriving DecidableEq

/-- The state right after `handleConsentFlow` stores the pending consent and
arms the timer exactly when `timeout_seconds > 0`. -/
def initConsentFlow (timeoutSeconds : Nat) : ConsentFlowState :=
  { pendingPresent := true
    timerArmed := decide (0 < timeoutSeconds)
    outcome := none }

/-- The external events a pending consent can receive: a decision message from
the webview (explicit click or the webview's timeout auto-deny), or the
extension-side timer firing. -/
inductive ConsentEvent
  | userDecision (approved : Bool) (rememberChoice : Bool)
  | timerFires
deriving DecidableEq

/-- Embed one event step of the consent flow. `provideConsentOk` abstracts
whether the `provide_consent` call succeeds, and `retryReply` abstracts the
server's reply (`resolved_data`) to the retried resolution (`none` = the retry
throws). Returns the new state and the server calls issued, in order. -/
def consentFlowStep (provideConsentOk : Bool) (retryReply : Option (List Char))
    (requestId originalData : List Char)
    (s : ConsentFlowState) (e : ConsentEvent) : ConsentFlowState × List RpcCall :=
  match e with
  | .userDecision approved _rememberChoice =>
    if s.pendingPresent then
      if provideConsentOk then
        if approved then
          let retryCall := RpcCall.resolvePlaceholders originalData
            (createUsageContext .display .client ("user_interface".data) none) none
          match retryReply with
          | some d =>
            ({ s with pendingPresent := false, outcome := some (.resolvedData d) },
              [RpcCall.provideConsent requestId approved false, retryCall])
          | none =>
            ({ s with pendingPresent := false, outcome := some .otherError },
              [RpcCall.provideConsent requestId approved false, retryCall])
        else
          ({ s with pendingPresent := false, outcome := some .deniedByUser },
            [RpcCall.provideConsent requestId approved false])
      else
        ({ s with pendingPresent := false, outcome := some .otherError },
          [RpcCall.provideConsent requestId approved false])
    else (s, [])
  | .timerFires =>
    if s.timerArmed && s.pendingPresent then
      ({ s with pendingPresent := false, outcome := some .timedOut }, [])
    else (s, [])

/-- Run the consent flow from its initial state over a sequence of events,
accumulating the server calls issued. -/
def runConsentFlow (provideConsentOk : Bool) (retryReply : Option (List Char))
    (requestId originalData : List Char) (timeoutSeconds : Nat)
    (events : List ConsentEvent) : ConsentFlowState × List RpcCall :=
  events.foldl
    (fun acc e =>
      let step := consentFlowStep provideConsentOk retryReply requestId
        originalData acc.1 e
      (step.1, acc.2 ++ step.2))
    (initConsentFlow timeoutSeconds, [])

/-! ### Chat-view session state

Embeds the mutable maps of `ChatViewProvider` touched by the `clearChat`
webview message (chatView.ts lines 124-128) and by `refreshConfiguration`
(chatView.ts lines 1362-1369). `loadTools`, called at the end of
`refreshConfiguration`, later repopulates the tool-name maps from fresh
`tools/list` responses; the state below captures the maps right after the
synchronous clearing. -/

/-- The session-level mutable maps of `ChatViewProvider`. -/
structure ChatViewState where
  chatHistory : List (List Char)
  toolCallIdToServerKey : List (List Char × List Char)
  toolCallIdToInfo : List (List Char × (List Char × Bool))
  mcpClients : List (List Char)
  toolNameToServerKey : List (List Char × List Char)
  toolSensitivity : List (List Char × Bool)
deriving DecidableEq

/-- Embed the `clearChat` branch of the webview message handler (chatView.ts
lines 124-128): `this._chatHistory = []` and nothing else. -/
def handleClearChatMessage (s : ChatViewState) : ChatViewState :=
  { s with chatHistory := [] }

/-- Embed `refreshConfiguration` (chatView.ts lines 1362-1369): all cached
clients and tool maps, including both tool-call-id maps, are cleared. -/
def refreshConfiguration (s : ChatViewState) : ChatViewState :=
  { s with
    mcpClients := []
    toolNameToServerKey := []
    toolSensitivity := []
    toolCallIdToInfo := []
    toolCallIdToServerKey := [] }

/-! ### Client data cache

Embeds `McpClient.getData` (mcpClient.ts lines 682-716) over the per-instance
`dataCache` map (mcpClient.ts line 574). The network is abstracted as a
function from the data-reference id to an optional `FetchedData` result
(`none` = error response or transport failure, which the source turns into a
thrown error). -/

/-- Embed the `FetchedData` shape: a `table` payload of headers and rows, or a
`keyValue` payload. -/
inductive FetchedDataM
  | table (headers : List (List Char)) (rows : List (List (List Char)))
  | keyValue (payload : List (List Char × List Char))
deriving DecidableEq

/-- Embed `McpClient.getData`: a cache hit returns the cached value with no
request; otherwise one request is issued and a successful result is cached.
Returns the result, the new cache, and whether a network request was
issued. -/
def getData (network : List Char → Option FetchedDataM)
    (cache : List (List Char × FetchedDataM)) (dataRefId : List Char) :
    Option FetchedDataM × List (List Char × FetchedDataM) × Bool :=
  match lookupA cache dataRefId with
  | some d => (some d, cache, false)
  | none =>
    match network dataRefId with
    | some d => (some d, insertA cache dataRefId d, true)
    | none => (none, cache, true)

/-! ### Specification-side server-key tie-break

Modelled from the spec: §4.3 documents the fallback as "the
lexicographically-first configured server key"; this definition follows the
spec's words (not the source) so the two tie-break rules can be compared. -/

/-- Lexicographic strict order on character lists by code point. -/
def lexLt : List Char → List Char → Bool
  | [], [] => false
  | [], _ :: _ => true
  | _ :: _, [] => false
  | a :: as, b :: bs =>
    if a.toNat < b.toNat then true
    else if b.toNat < a.toNat then false
    else lexLt as bs

/-- Modelled from the spec: the lexicographically-first configured server key
of §4.3, used as the comparison point for the source's fallback choice. -/
def specLexFirstKey (servers : List (List Char × List Char)) : Option (List Char) :=
  match servers with
  | [] => none
  | (k0, _) :: rest =>
    some (rest.foldl (fun m e => if lexLt e.1 m then e.1 else m) k0)

/-! ## Helper lemmas -/

theorem stripOuterBraces_wrap (t : List Char) :
    stripOuterBraces (wrapBraces t) = some t := by
  simp [stripOuterBraces, wrapBraces]

theorem stripBraceEnds_wrap (t : List Char) :
    stripBraceEnds (wrapBraces t) = t := by
  simp [stripBraceEnds, wrapBraces]

theorem isSimplePlaceholder_wrap (t : List Char) (h1 : t ≠ [])
    (h2 : hasChar '}' t = false) :
    isSimplePlaceholder (wrapBraces t) = true := by
  simp [isSimplePlaceholder, stripOuterBraces_wrap, h1, h2]

theorem splitAtFirst_of_not_mem (c : Char) (k t : List Char)
    (hk : hasChar c k = false) :
    splitAtFirst c (k ++ c :: t) = some (k, t) := by
  induction k with
  | nil => simp [splitAtFirst]
  | cons a rest ih =>
    simp only [hasChar, List.any_cons, Bool.or_eq_false_iff, decide_eq_false_iff_not] at hk
    obtain ⟨hac, hrest⟩ := hk
    have ih' := ih (by simpa [hasChar] using hrest)
    simp [splitAtFirst, hac, ih']

theorem decodeDigits_concat (l : List Char) (c : Char) :
    decodeDigits (l ++ [c]) = decodeDigits l * 10 + dval c := by
  simp [decodeDigits, List.foldl_append]

theorem dval_digitChar (n : Nat) (h : n < 10) : dval (digitChar n) = n := by
  interval_cases n <;> decide

theorem decodeDigits_natReprAux (fuel : Nat) :
    ∀ n : Nat, n < fuel → decodeDigits (natReprAux fuel n) = n := by
  induction fuel with
  | zero => intro n h; omega
  | succ fuel ih =>
    intro n h
    by_cases h10 : n < 10
    · simp [natReprAux, h10, decodeDigits, dval_digitChar n h10]
    · have hdiv : n / 10 < fuel :=
        lt_of_lt_of_le (Nat.div_lt_self (by omega) (by omega)) (by omega)
      simp only [natReprAux, h10, if_neg, if_false]
      rw [decodeDigits_concat, ih _ hdiv,
        dval_digitChar (n % 10) (Nat.mod_lt _ (by omega))]
      omega

theorem decodeDigits_natRepr (n : Nat) : decodeDigits (natRepr n) = n :=
  decodeDigits_natReprAux (n + 1) n (Nat.lt_succ_self n)

theorem natRepr_injective : Function.Injective natRepr := by
  intro a b h
  have := congrArg decodeDigits h
  simpa [decodeDigits_natRepr] using this

/-! ## Claim C2: placeholder codec round-trip -/

/-- Claim C2. Round-trip law of the placeholder codec: for every placeholder
token `{t}` that carries no server-key prefix (it does not match the prefixed
regex, its body is non-empty and brace-free) and every valid server key `k`
(non-empty, containing neither a colon nor a closing brace), stripping the
prefix after injecting it restores the original token:
`toModelForm (toWireForm t k) = t`. -/
theorem toModelForm_toWireForm_roundtrip (t k : List Char)
    (ht1 : t ≠ []) (ht2 : hasChar '}' t = false)
    (ht3 : isPrefixedPlaceholder (wrapBraces t) = false)
    (hk1 : k ≠ []) (hk2 : hasChar ':' k = false) (hk3 : hasChar '}' k = false) :
    toModelForm (toWireForm (wrapBraces t) k) = wrapBraces t := by
  have hwire : toWireForm (wrapBraces t) k = wrapBraces (k ++ ':' :: t) := by
    simp [toWireForm, ht3, isSimplePlaceholder_wrap t ht1 ht2, stripBraceEnds_wrap]
  rw [hwire]
  have hnobrace : hasChar '}' (k ++ ':' :: t) = false := by
    simp only [hasChar, List.any_append, List.any_cons, Bool.or_eq_false_iff,
      decide_eq_false_iff_not]
    refine ⟨?_, ?_, ?_⟩
    · simpa [hasChar] using hk3
    · decide
    · simpa [hasChar] using ht2
  have hsplit := splitAtFirst_of_not_mem ':' k t hk2
  simp [toModelForm, matchPrefixed, stripOuterBraces_wrap, hnobrace, hsplit, hk1, ht1]

/-- Witness for C2 at the concrete token `{call_1.0.email}` and server key
`srvA`. -/
theorem toModelForm_toWireForm_roundtrip_witness :
    toModelForm (toWireForm (wrapBraces ("call_1.0.email".data)) ("srvA".data))
      = wrapBraces ("call_1.0.email".data) :=
  toModelForm_toWireForm_roundtrip ("call_1.0.email".data) ("srvA".data)
    (by decide) (by decide) (by decide) (by decide) (by decide) (by decide)

/-! ## Claim C7: server-key fallback tie-break -/

/-- Counterexample to C7. With the configuration `{b: ..., a: ...}` (keys in
that insertion order), an omitted server key falls back to `b`, the first
configured key, while the lexicographically-first configured key is `a`: the
source's fallback is insertion-order-first, not lexicographic. -/
theorem getClientKey_not_lexicographic :
    getClientKey [("b".data, "urlB".data), ("a".data, "urlA".data)] none
      = some ("b".data)
    ∧ specLexFirstKey [("b".data, "urlB".data), ("a".data, "urlA".data)]
      = some ("a".data)
    ∧ ("b".data : List Char) ≠ "a".data := by
  refine ⟨rfl, rfl, by decide⟩

/-- Claim C7 as amended: when the requested server key is omitted, empty
(JavaScript-falsy) or not among the configured servers, the lookup falls back
deterministically to the *first configured server key in configuration
insertion order*, not the lexicographically-first one. -/
theorem getClientKey_falls_back_to_first_configured
    (k0 u0 : List Char) (rest : List (List Char × List Char)) :
    getClientKey ((k0, u0) :: rest) none = some k0
    ∧ ∀ k : List Char, (k = [] ∨ lookupA ((k0, u0) :: rest) k = none) →
        getClientKey ((k0, u0) :: rest) (some k) = some k0 := by
  constructor
  · rfl
  · intro k hk
    rcases hk with hk | hk
    · subst hk; simp [getClientKey]
    · simp [getClientKey, hk]

/-- Witness for the amended C7 with one configured server `b` and the unknown
requested key `z`. -/
theorem getClientKey_falls_back_witness :
    getClientKey [("b".data, "u".data)] none = some ("b".data)
    ∧ getClientKey [("b".data, "u".data)] (some ("z".data)) = some ("b".data) :=
  ⟨(getClientKey_falls_back_to_first_configured ("b".data) ("u".data) []).1,
   (getClientKey_falls_back_to_first_configured ("b".data) ("u".data) []).2
     ("z".data) (Or.inr (by decide))⟩

/-! ## Claim C9: chat-clear and the tool-call ledger -/

/-- Counterexample to C9. The `clearChat` webview message only clears the chat
history: from a state holding one record for `call_1`, both tool-call-id maps
still hold that record after the clear, so the ledger is *not* reset on an
explicit chat-clear. -/
theorem clearChat_keeps_toolCall_ledger :
    (handleClearChatMessage
        { chatHistory := ["hi".data]
          toolCallIdToServerKey := [("call_1".data, "A".data)]
          toolCallIdToInfo := [("call_1".data, ("get_emails".data, true))]
          mcpClients := ["A".data]
          toolNameToServerKey := [("get_emails".data, "A".data)]
          toolSensitivity := [("get_emails".data, true)] }).toolCallIdToServerKey
      = [("call_1".data, "A".data)]
    ∧ (handleClearChatMessage
        { chatHistory := ["hi".data]
          toolCallIdToServerKey := [("call_1".data, "A".data)]
          toolCallIdToInfo := [("call_1".data, ("get_emails".data, true))]
          mcpClients := ["A".data]
          toolNameToServerKey := [("get_emails".data, "A".data)]
          toolSensitivity := [("get_emails".data, true)] }).toolCallIdToInfo
      = [("call_1".data, ("get_emails".data, true))] := by
  exact ⟨rfl, rfl⟩

/-- Claim C9 as amended: an explicit chat-clear resets only the chat history
and leaves every tool-call-id mapping in place; the two tool-call-id maps are
instead cleared by `refreshConfiguration` (a configuration change), which
removes every record. -/
theorem clearChat_clears_only_history (s : ChatViewState) :
    (handleClearChatMessage s).chatHistory = []
    ∧ (handleClearChatMessage s).toolCallIdToServerKey = s.toolCallIdToServerKey
    ∧ (handleClearChatMessage s).toolCallIdToInfo = s.toolCallIdToInfo
    ∧ (refreshConfiguration s).toolCallIdToServerKey = []
    ∧ (refreshConfiguration s).toolCallIdToInfo = [] := by
  exact ⟨rfl, rfl, rfl, rfl, rfl⟩

/-! ## Claim C10: client-side data cache -/

theorem lookupA_insertA_self {α β : Type} [DecidableEq α]
    (c : List (α × β)) (k : α) (v : β) : lookupA (insertA c k v) k = some v := by
  induction c with
  | nil => simp [insertA, lookupA]
  | cons kv rest ih =>
    obtain ⟨k', v'⟩ := kv
    by_cases h : k' = k
    · simp [insertA, lookupA, h]
    · simp [insertA, lookupA, h, ih]

/-- Claim C10. Once a `getData` call for a data-reference id has succeeded on
a client, any subsequent `getData` call with the same id on that client
returns the identical cached `FetchedData`, leaves the cache unchanged, and
issues no network request — regardless of how the network would now behave. -/
theorem getData_cached_after_success
    (network network2 : List Char → Option FetchedDataM)
    (cache : List (List Char × FetchedDataM)) (dataRefId : List Char)
    (d : FetchedDataM)
    (h : (getData network cache dataRefId).1 = some d) :
    getData network2 (getData network cache dataRefId).2.1 dataRefId
      = (some d, (getData network cache dataRefId).2.1, false) := by
  unfold getData at h ⊢
  cases hc : lookupA cache dataRefId with
  | some d' =>
    rw [hc] at h
    simp at h
    subst h
    simp [hc]
  | none =>
    rw [hc] at h
    cases hn : network dataRefId with
    | some d2 =>
      rw [hn] at h
      simp at h
      subst h
      simp [lookupA_insertA_self]
    | none =>
      rw [hn] at h
      simp at h

/-- Witness for C10: after a successful fetch of `call_1` into an empty cache,
a second call answers from the cache even against a network that now fails. -/
theorem getData_cached_witness :
    (getData (fun _ => some (FetchedDataM.keyValue [])) [] ("call_1".data)).1
      = some (FetchedDataM.keyValue [])
    ∧ getData (fun _ => none)
        (getData (fun _ => some (FetchedDataM.keyValue [])) [] ("call_1".data)).2.1
        ("call_1".data)
      = (some (FetchedDataM.keyValue []),
         (getData (fun _ => some (FetchedDataM.keyValue [])) [] ("call_1".data)).2.1,
         false) :=
  ⟨rfl, getData_cached_after_success _ _ _ _ _ rfl⟩

/-! ## Claim C1: consent timeout -/

/-- Counterexample to C1. With `timeout_seconds = 1` and no user decision, the
extension-side timer fires first (it is armed before the consent prompt is
even posted to the webview, and the webview's auto-deny timer has the same
duration), removes the pending entry and rejects the caller's promise; the
webview's later auto-deny finds no pending entry and is dropped. The run
issues *no* server call and settles with a timeout outcome, whereas an
explicit denial issues `provide_consent(approved = false)` and settles with a
denial outcome — so a timeout is *not* handled identically to an explicit
denial and the server is never notified. -/
theorem consentTimeout_not_identical_to_denial :
    (runConsentFlow true none ("c1".data) ("d".data) 1
        [ConsentEvent.timerFires, ConsentEvent.userDecision false false]).2 = []
    ∧ (runConsentFlow true none ("c1".data) ("d".data) 1
        [ConsentEvent.userDecision false false]).2
      = [RpcCall.provideConsent ("c1".data) false false]
    ∧ (runConsentFlow true none ("c1".data) ("d".data) 1
        [ConsentEvent.timerFires, ConsentEvent.userDecision false false]).1.outcome
      = some ConsentOutcome.timedOut
    ∧ (runConsentFlow true none ("c1".data) ("d".data) 1
        [ConsentEvent.userDecision false false]).1.outcome
      = some ConsentOutcome.deniedByUser
    ∧ ConsentOutcome.timedOut ≠ ConsentOutcome.deniedByUser := by
  refine ⟨rfl, rfl, rfl, rfl, by decide⟩

/-- Claim C1 as amended: for every consent request with `timeoutSeconds > 0`
and no user decision, when the timer fires the pending entry is removed and
the caller's resolution fails with a timeout error — the caller never hangs —
but, unlike an explicit denial, *no* `provide_consent` call is issued to the
server, and any decision arriving after the timeout (such as the webview's
auto-deny) is ignored. -/
theorem consentTimeout_failsClosed_without_notifying_server
    (provideConsentOk : Bool) (retryReply : Option (List Char))
    (requestId originalData : List Char) (timeoutSeconds : Nat)
    (approved rememberChoice : Bool)
    (h : 0 < timeoutSeconds) :
    (runConsentFlow provideConsentOk retryReply requestId originalData
        timeoutSeconds [ConsentEvent.timerFires]).1.outcome
      = some ConsentOutcome.timedOut
    ∧ (runConsentFlow provideConsentOk retryReply requestId originalData
        timeoutSeconds [ConsentEvent.timerFires]).1.pendingPresent = false
    ∧ (runConsentFlow provideConsentOk retryReply requestId originalData
        timeoutSeconds [ConsentEvent.timerFires]).2 = []
    ∧ runConsentFlow provideConsentOk retryReply requestId originalData
        timeoutSeconds
        [ConsentEvent.timerFires, ConsentEvent.userDecision approved rememberChoice]
      = runConsentFlow provideConsentOk retryReply requestId originalData
          timeoutSeconds [ConsentEvent.timerFires] := by
  simp [runConsentFlow, initConsentFlow, consentFlowStep, h]

/-- Witness for the amended C1 at `timeout_seconds = 1` with a late denial. -/
theorem consentTimeout_failsClosed_witness :
    (0 < 1)
    ∧ ((runConsentFlow true none ("c1".data) ("d".data) 1
          [ConsentEvent.timerFires]).1.outcome = some ConsentOutcome.timedOut
      ∧ (runConsentFlow true none ("c1".data) ("d".data) 1
          [ConsentEvent.timerFires]).1.pendingPresent = false
      ∧ (runConsentFlow true none ("c1".data) ("d".data) 1
          [ConsentEvent.timerFires]).2 = []
      ∧ runConsentFlow true none ("c1".data) ("d".data) 1
          [ConsentEvent.timerFires, ConsentEvent.userDecision false false]
        = runConsentFlow true none ("c1".data) ("d".data) 1
            [ConsentEvent.timerFires]) :=
  ⟨by decide,
   consentTimeout_failsClosed_without_notifying_server true none ("c1".data)
     ("d".data) 1 false false (by decide)⟩

/-! ## Claim C6: consent approval and retry -/

/-- Counterexample to C6. On approval the coordinator does notify the server
first and retries once, but the retried call is *not* the original resolution
request: the retry always uses a freshly built
`('display', 'client', 'user_interface')` usage context and no tool name,
which differs from an original request made with a
`('process', 'llm', 'openai')` context and a tool name. -/
theorem consentRetry_not_original_request :
    (runConsentFlow true (some ("Ada".data)) ("c1".data) ("msg".data) 30
        [ConsentEvent.userDecision true false]).2
      = [RpcCall.provideConsent ("c1".data) true false,
         RpcCall.resolvePlaceholders ("msg".data)
           (createUsageContext DataUsage.display TargetType.client
             ("user_interface".data) none) none]
    ∧ RpcCall.resolvePlaceholders ("msg".data)
        (createUsageContext DataUsage.display TargetType.client
          ("user_interface".data) none) none
      ≠ resolveWithAccessControlCall ("msg".data) DataUsage.process TargetType.llm
          ("openai".data) (some ("summarize".data)) (some ("crm_search".data)) := by
  refine ⟨rfl, by decide⟩

/-- Claim C6 as amended: whenever a pending consent is approved before its
timeout (and the acknowledgement call succeeds), the coordinator first sends
`provide_consent` with `approved = true` and the same `request_id`, then
retries the resolution exactly once — with the same data but a freshly built
`('display', 'client', 'user_interface')` usage context and no tool name
instead of the original request's context — and settles the caller's promise
with the retry's resolved data. -/
theorem consentApproval_notifies_then_retries_once
    (d requestId originalData : List Char) (timeoutSeconds : Nat)
    (rememberChoice : Bool) :
    runConsentFlow true (some d) requestId originalData timeoutSeconds
        [ConsentEvent.userDecision true rememberChoice]
      = ({ pendingPresent := false
           timerArmed := decide (0 < timeoutSeconds)
           outcome := some (ConsentOutcome.resolvedData d) },
         [RpcCall.provideConsent requestId true false,
          RpcCall.resolvePlaceholders originalData
            (createUsageContext DataUsage.display TargetType.client
              ("user_interface".data) none) none]) := by
  rfl

/-! ## Claim C3: placeholders with no ledger entry -/

theorem addToGroup_not_mem {α β : Type} [DecidableEq α]
    (groups : List (α × List β)) (k : α) (q p : β) (hpq : p ≠ q)
    (h : ∀ e ∈ groups, p ∉ e.2) :
    ∀ e ∈ addToGroup groups k q, p ∉ e.2 := by
  induction groups with
  | nil =>
    intro e he
    simp only [addToGroup, List.mem_singleton] at he
    subst he
    simp [hpq]
  | cons g rest ih =>
    obtain ⟨k', ps⟩ := g
    intro e he
    rw [addToGroup] at he
    by_cases hk : k' = k
    · rw [if_pos hk] at he
      rcases List.mem_cons.mp he with he | he
      · subst he
        intro hmem
        rcases List.mem_append.mp hmem with hm | hm
        · exact h (k', ps) (List.mem_cons_self _ _) hm
        · simp only [List.mem_singleton] at hm
          exact hpq hm
      · exact h e (List.mem_cons_of_mem _ he)
    · rw [if_neg hk] at he
      rcases List.mem_cons.mp he with he | he
      · subst he
        exact h (k', ps) (List.mem_cons_self _ _)
      · exact ih (fun e' he' => h e' (List.mem_cons_of_mem _ he')) e he

theorem routePlaceholder_not_mem (ledger : List (List Char × List Char))
    (p tid : List Char)
    (h1 : extractToolCallIdFromPlaceholder p = some tid)
    (h2 : lookupA ledger tid = none)
    (groups : List (List Char × List (List Char))) (q : List Char)
    (h : ∀ e ∈ groups, p ∉ e.2) :
    ∀ e ∈ routePlaceholder ledger [] groups q, p ∉ e.2 := by
  by_cases hq : q = p
  · subst hq
    simpa [routePlaceholder, h1, h2] using h
  · cases hx : extractToolCallIdFromPlaceholder q with
    | none =>
      have hred : routePlaceholder ledger [] groups q = groups := by
        simp [routePlaceholder, hx]
      rw [hred]; exact h
    | some tid2 =>
      cases hl : lookupA ledger tid2 with
      | some sk =>
        have hred : routePlaceholder ledger [] groups q = addToGroup groups sk q := by
          simp [routePlaceholder, hx, hl]
        rw [hred]
        exact addToGroup_not_mem groups sk q p (fun hh => hq hh.symm) h
      | none =>
        have hred : routePlaceholder ledger [] groups q = groups := by
          simp [routePlaceholder, hx, hl]
        rw [hred]; exact h

theorem unknownRoute_foldl_not_mem (ledger : List (List Char × List Char))
    (p tid : List Char)
    (h1 : extractToolCallIdFromPlaceholder p = some tid)
    (h2 : lookupA ledger tid = none) :
    ∀ (ps : List (List Char)) (groups : List (List Char × List (List Char))),
      (∀ e ∈ groups, p ∉ e.2) →
      ∀ e ∈ ps.foldl (routePlaceholder ledger []) groups, p ∉ e.2 := by
  intro ps
  induction ps with
  | nil => intro groups hg; simpa using hg
  | cons q rest ih =>
    intro groups hg
    simp only [List.foldl_cons]
    exact ih _ (routePlaceholder_not_mem ledger p tid h1 h2 groups q hg)

theorem addToGroup_mem_self {α β : Type} [DecidableEq α]
    (groups : List (α × List β)) (k : α) (q : β) :
    ∃ e ∈ addToGroup groups k q, e.1 = k ∧ q ∈ e.2 := by
  induction groups with
  | nil => exact ⟨(k, [q]), by simp [addToGroup]⟩
  | cons g rest ih =>
    obtain ⟨k', ps⟩ := g
    by_cases hk : k' = k
    · subst hk
      exact ⟨(k', ps ++ [q]), by simp [addToGroup]⟩
    · obtain ⟨e, he, hek, heq⟩ := ih
      exact ⟨e, by simp [addToGroup, hk, he], hek, heq⟩

theorem addToGroup_mem_mono {α β : Type} [DecidableEq α]
    (groups : List (α × List β)) (k' : α) (q : β) (k : α) (p : β)
    (h : ∃ e ∈ groups, e.1 = k ∧ p ∈ e.2) :
    ∃ e ∈ addToGroup groups k' q, e.1 = k ∧ p ∈ e.2 := by
  induction groups with
  | nil => simp at h
  | cons g rest ih =>
    obtain ⟨k0, ps0⟩ := g
    obtain ⟨e, he, hek, hep⟩ := h
    rcases List.mem_cons.mp he with he0 | he0
    · subst he0
      by_cases hk0 : k0 = k'
      · subst hk0
        refine ⟨(k0, ps0 ++ [q]), by simp [addToGroup], ?_, ?_⟩
        · simpa using hek
        · simp only [List.mem_append]
          exact Or.inl (by simpa using hep)
      · exact ⟨(k0, ps0), by simp [addToGroup, hk0], hek, hep⟩
    · by_cases hk0 : k0 = k'
      · subst hk0
        exact ⟨e, by simp [addToGroup, he0], hek, hep⟩
      · obtain ⟨e2, he2, he2k, he2p⟩ := ih ⟨e, he0, hek, hep⟩
        exact ⟨e2, by simp [addToGroup, hk0, he2], he2k, he2p⟩

theorem routePlaceholder_mem_mono (ledger : List (List Char × List Char))
    (avail : List (List Char))
    (groups : List (List Char × List (List Char))) (q : List Char)
    (k : List Char) (p : List Char)
    (h : ∃ e ∈ groups, e.1 = k ∧ p ∈ e.2) :
    ∃ e ∈ routePlaceholder ledger avail groups q, e.1 = k ∧ p ∈ e.2 := by
  cases hx : extractToolCallIdFromPlaceholder q with
  | none =>
    have hred : routePlaceholder ledger avail groups q = groups := by
      simp [routePlaceholder, hx]
    rw [hred]; exact h
  | some tid2 =>
    cases hl : lookupA ledger tid2 with
    | some sk =>
      have hred : routePlaceholder ledger avail groups q = addToGroup groups sk q := by
        simp [routePlaceholder, hx, hl]
      rw [hred]
      exact addToGroup_mem_mono groups sk q k p h
    | none =>
      cases avail with
      | nil =>
        have hred : routePlaceholder ledger [] groups q = groups := by
          simp [routePlaceholder, hx, hl]
        rw [hred]; exact h
      | cons k0 restAvail =>
        have hred : routePlaceholder ledger (k0 :: restAvail) groups q
            = addToGroup groups k0 q := by
          simp [routePlaceholder, hx, hl]
        rw [hred]
        exact addToGroup_mem_mono groups k0 q k p h

theorem foldl_routePlaceholder_mem_mono (ledger : List (List Char × List Char))
    (avail : List (List Char)) (k : List Char) (p : List Char) :
    ∀ (ps : List (List Char)) (groups : List (List Char × List (List Char))),
      (∃ e ∈ groups, e.1 = k ∧ p ∈ e.2) →
      ∃ e ∈ ps.foldl (routePlaceholder ledger avail) groups, e.1 = k ∧ p ∈ e.2 := by
  intro ps
  induction ps with
  | nil => intro groups h; simpa using h
  | cons q rest ih =>
    intro groups h
    simp only [List.foldl_cons]
    exact ih _ (routePlaceholder_mem_mono ledger avail groups q k p h)

theorem unknownRoute_foldl_fallback (ledger : List (List Char × List Char))
    (p tid : List Char)
    (h1 : extractToolCallIdFromPlaceholder p = some tid)
    (h2 : lookupA ledger tid = none)
    (k0 : List Char) (restAvail : List (List Char)) :
    ∀ (ps : List (List Char)) (groups : List (List Char × List (List Char))),
      p ∈ ps →
      ∃ e ∈ ps.foldl (routePlaceholder ledger (k0 :: restAvail)) groups,
        e.1 = k0 ∧ p ∈ e.2 := by
  intro ps
  induction ps with
  | nil => intro groups hp; simp at hp
  | cons q rest ih =>
    intro groups hp
    simp only [List.foldl_cons]
    rcases List.mem_cons.mp hp with hq | hp2
    · subst hq
      have hstep : routePlaceholder ledger (k0 :: restAvail) groups p
          = addToGroup groups k0 p := by
        simp [routePlaceholder, h1, h2]
      rw [hstep]
      exact foldl_routePlaceholder_mem_mono ledger (k0 :: restAvail) k0 p rest _
        (addToGroup_mem_self groups k0 p)
    · exact ih _ hp2

/-- Counterexample to C3. The text placeholder `call_99.0.x` has no ledger
entry for `call_99`, yet with one available server `srvA` the grouping does
*not* drop it: it is routed to `srvA` as a fallback and one batched request
carrying it is issued to `srvA` — so it is not "sent to no server". -/
theorem unknownRoute_placeholder_sent_to_fallback_server :
    extractToolCallIdFromPlaceholder ("call_99.0.x".data) = some ("call_99".data)
    ∧ lookupA ([] : List (List Char × List Char)) ("call_99".data) = none
    ∧ groupPlaceholdersByServer [] [("srvA".data)] [("call_99.0.x".data)]
      = [(("srvA".data), [("call_99.0.x".data)])]
    ∧ issuedBatchRequests [(("srvA".data), ("u".data))] [] [("srvA".data)]
        [("call_99.0.x".data)]
      = [(("srvA".data), [(batchKey 0, wrapBraces ("call_99.0.x".data))])] := by
  refine ⟨rfl, rfl, rfl, rfl⟩

/-- Claim C3 as amended: during grouping, a placeholder whose derived
`toolCallId` has no entry in the tool-call ledger is *not* dropped when at
least one client exists — it is routed to the first available server as a
fallback; it is dropped from the attempt (grouped to no server, hence sent to
no server) only when no clients are available. -/
theorem unknownRoute_fallback_or_drop
    (ledger : List (List Char × List Char)) (ps : List (List Char))
    (p tid : List Char)
    (h1 : extractToolCallIdFromPlaceholder p = some tid)
    (h2 : lookupA ledger tid = none) :
    (∀ e ∈ groupPlaceholdersByServer ledger [] ps, p ∉ e.2)
    ∧ ∀ (k0 : List Char) (restAvail : List (List Char)), p ∈ ps →
        ∃ e ∈ groupPlaceholdersByServer ledger (k0 :: restAvail) ps,
          e.1 = k0 ∧ p ∈ e.2 := by
  constructor
  · exact unknownRoute_foldl_not_mem ledger p tid h1 h2 ps [] (by simp)
  · intro k0 restAvail hp
    exact unknownRoute_foldl_fallback ledger p tid h1 h2 k0 restAvail ps [] hp

/-- Witness for the amended C3: with no available server the unroutable
placeholder `call_99.0.x` lands in no group; with `srvA` available it lands in
`srvA`'s group. -/
theorem unknownRoute_fallback_or_drop_witness :
    (extractToolCallIdFromPlaceholder ("call_99.0.x".data) = some ("call_99".data)
      ∧ lookupA ([] : List (List Char × List Char)) ("call_99".data) = none)
    ∧ ((∀ e ∈ groupPlaceholdersByServer [] [] [("call_99.0.x".data)],
          ("call_99.0.x".data) ∉ e.2)
      ∧ ∀ (k0 : List Char) (restAvail : List (List Char)),
          ("call_99.0.x".data) ∈ [("call_99.0.x".data)] →
          ∃ e ∈ groupPlaceholdersByServer [] (k0 :: restAvail)
              [("call_99.0.x".data)],
            e.1 = k0 ∧ ("call_99.0.x".data) ∈ e.2) :=
  ⟨⟨by decide, rfl⟩,
   unknownRoute_fallback_or_drop [] [("call_99.0.x".data)] ("call_99.0.x".data)
     ("call_99".data) (by decide) rfl⟩

/-! ## Claim C4: fan-out isolation -/

/-- Claim C4. Two placeholders owned by server `A` and one owned by server `B`
are grouped and resolved; `A`'s batched call fails (the transport returns the
failure that the source turns into `null`) while `B`'s succeeds. The merged
resolved map contains exactly `B`'s value, `A`'s placeholders have no resolved
entry, and the final text is the original message with only `B`'s placeholder
substituted — `B`'s resolution is unaffected by `A`'s failure, for every
message and every resolved value `v`. -/
theorem fanout_isolation (message v : List Char) :
    attemptResolvedValues
        [(("A".data), ("uA".data)), (("B".data), ("uB".data))]
        (fun k _ =>
          if k = "A".data then none
          else if k = "B".data then some [(batchKey 0, v)]
          else none)
        [(("call_1".data), ("A".data)), (("call_2".data), ("B".data))]
        []
        [("call_1.0.a".data), ("call_1.1.a".data), ("call_2.0.c".data)]
      = [(("call_2.0.c".data), v)]
    ∧ lookupA
        (attemptResolvedValues
          [(("A".data), ("uA".data)), (("B".data), ("uB".data))]
          (fun k _ =>
            if k = "A".data then none
            else if k = "B".data then some [(batchKey 0, v)]
            else none)
          [(("call_1".data), ("A".data)), (("call_2".data), ("B".data))]
          []
          [("call_1.0.a".data), ("call_1.1.a".data), ("call_2.0.c".data)])
        ("call_1.0.a".data) = none
    ∧ lookupA
        (attemptResolvedValues
          [(("A".data), ("uA".data)), (("B".data), ("uB".data))]
          (fun k _ =>
            if k = "A".data then none
            else if k = "B".data then some [(batchKey 0, v)]
            else none)
          [(("call_1".data), ("A".data)), (("call_2".data), ("B".data))]
          []
          [("call_1.0.a".data), ("call_1.1.a".data), ("call_2.0.c".data)])
        ("call_1.1.a".data) = none
    ∧ resolveMessagePlaceholdersEfficiently
        [(("A".data), ("uA".data)), (("B".data), ("uB".data))]
        (fun k _ =>
          if k = "A".data then none
          else if k = "B".data then some [(batchKey 0, v)]
          else none)
        [(("call_1".data), ("A".data)), (("call_2".data), ("B".data))]
        []
        message
        [("call_1.0.a".data), ("call_1.1.a".data), ("call_2.0.c".data)]
      = replaceAll (wrapBraces ("call_2.0.c".data)) v message := by
  refine ⟨rfl, rfl, rfl, rfl⟩

/-! ## Claim C5: fallback policy -/

/-- Counterexample to C5. The source decides between fallback and resolved
text by *textual identity* (`resolvedMessage === message`), not by counting
resolved placeholders. In this run one placeholder (of one extracted) *does*
resolve — the server answers with the literal text of the placeholder itself —
yet the substituted message equals the original, so the fallback message `FB`
is displayed instead of the best-effort substituted text. -/
theorem resolvedPlaceholder_can_still_trigger_fallback :
    extractPlaceholdersFromText ("Hi ".data ++ wrapBraces ("call_1.0.x".data))
      = [("call_1.0.x".data)]
    ∧ attemptResolvedValues [(("A".data), ("u".data))]
        (fun k _ => if k = "A".data
          then some [(batchKey 0, wrapBraces ("call_1.0.x".data))] else none)
        [(("call_1".data), ("A".data))] [] [("call_1.0.x".data)]
      = [(("call_1.0.x".data), wrapBraces ("call_1.0.x".data))]
    ∧ handlePlaceholderMessage [(("A".data), ("u".data))]
        (fun k _ => if k = "A".data
          then some [(batchKey 0, wrapBraces ("call_1.0.x".data))] else none)
        [(("call_1".data), ("A".data))] []
        ("Hi ".data ++ wrapBraces ("call_1.0.x".data)) ("FB".data)
      = "FB".data
    ∧ ("FB".data : List Char)
      ≠ resolveMessagePlaceholdersEfficiently [(("A".data), ("u".data))]
          (fun k _ => if k = "A".data
            then some [(batchKey 0, wrapBraces ("call_1.0.x".data))] else none)
          [(("call_1".data), ("A".data))] []
          ("Hi ".data ++ wrapBraces ("call_1.0.x".data)) [("call_1.0.x".data)] := by
  refine ⟨by decide, by decide, by decide, by decide⟩

theorem substituteAll_of_none (ps : List (List Char))
    (rv : List (List Char × List Char))
    (h : ∀ p ∈ ps, lookupA rv p = none) :
    ∀ message : List Char, substituteAll message ps rv = message := by
  induction ps with
  | nil => intro message; rfl
  | cons q rest ih =>
    intro message
    have hq := h q (List.mem_cons_self _ _)
    have hrest := fun p hp => h p (List.mem_cons_of_mem _ hp)
    have hstep : substituteAll message (q :: rest) rv
        = substituteAll message rest rv := by
      simp [substituteAll, hq]
    rw [hstep]
    exact ih hrest message

/-- Claim C5 as amended: with at least one extracted placeholder, the
caller-supplied fallback message is displayed exactly when the substituted
text is character-identical to the original message — which in particular
happens whenever zero of the extracted placeholders resolved — and otherwise
the best-effort substituted text is displayed as-is. (The source compares
texts rather than counting resolutions, so a placeholder that resolves to its
own literal text still triggers the fallback.) -/
theorem fallback_iff_substitution_identity
    (config : List (List Char × List Char))
    (transport : List Char → List (List Char × List Char) →
      Option (List (List Char × List Char)))
    (ledger : List (List Char × List Char))
    (avail : List (List Char))
    (message fallbackMessage : List Char)
    (h : extractPlaceholdersFromText message ≠ []) :
    ((∀ p ∈ extractPlaceholdersFromText message,
        lookupA (attemptResolvedValues config transport ledger avail
          (extractPlaceholdersFromText message)) p = none) →
      handlePlaceholderMessage config transport ledger avail message
        fallbackMessage = fallbackMessage)
    ∧ (handlePlaceholderMessage config transport ledger avail message
          fallbackMessage = fallbackMessage
      ∨ handlePlaceholderMessage config transport ledger avail message
          fallbackMessage
        = resolveMessagePlaceholdersEfficiently config transport ledger avail
            message (extractPlaceholdersFromText message)) := by
  have hne : (extractPlaceholdersFromText message).isEmpty = false := by
    cases hx : extractPlaceholdersFromText message with
    | nil => exact absurd hx h
    | cons a l => rfl
  constructor
  · intro hall
    have hzero : resolveMessagePlaceholdersEfficiently config transport ledger
        avail message (extractPlaceholdersFromText message) = message := by
      cases hg : (groupPlaceholdersByServer ledger avail
          (extractPlaceholdersFromText message)).isEmpty with
      | true => simp [resolveMessagePlaceholdersEfficiently, hg]
      | false =>
        simp only [resolveMessagePlaceholdersEfficiently, hg,
          Bool.false_eq_true, if_false]
        exact substituteAll_of_none _ _ hall message
    simp [handlePlaceholderMessage, hne, hzero]
  · by_cases hr : resolveMessagePlaceholdersEfficiently config transport ledger
        avail message (extractPlaceholdersFromText message) = message
    · left
      simp [handlePlaceholderMessage, hne, hr]
    · right
      simp [handlePlaceholderMessage, hne, hr]

/-- Witness for the amended C5: a message with one extracted placeholder and
no configured server resolves nothing, so the fallback `FB` is displayed. -/
theorem fallback_iff_substitution_identity_witness :
    (extractPlaceholdersFromText ("Hi ".data ++ wrapBraces ("call_1.0.x".data))
        ≠ [])
    ∧ handlePlaceholderMessage [] (fun _ _ => none) [] []
        ("Hi ".data ++ wrapBraces ("call_1.0.x".data)) ("FB".data)
      = "FB".data :=
  ⟨by decide,
   (fallback_iff_substitution_identity [] (fun _ _ => none) [] []
      ("Hi ".data ++ wrapBraces ("call_1.0.x".data)) ("FB".data)
      (by decide)).1 (by decide)⟩

/-! ## Claim C8: one batched request per server, unique batch keys -/

theorem addToGroup_map_fst {α β : Type} [DecidableEq α]
    (groups : List (α × List β)) (k : α) (q : β) :
    (addToGroup groups k q).map Prod.fst
      = if k ∈ groups.map Prod.fst then groups.map Prod.fst
        else groups.map Prod.fst ++ [k] := by
  induction groups with
  | nil => simp [addToGroup]
  | cons g rest ih =>
    obtain ⟨k', ps⟩ := g
    by_cases hk : k' = k
    · subst hk
      have hmem : k' ∈ ((k', ps) :: rest).map Prod.fst := by simp
      rw [addToGroup, if_pos rfl, if_pos hmem]
      simp
    · rw [addToGroup, if_neg hk]
      have hiff : (k ∈ ((k', ps) :: rest).map Prod.fst)
          ↔ (k ∈ rest.map Prod.fst) := by
        simp only [List.map_cons, List.mem_cons]
        constructor
        · rintro (hc | hc)
          · exact absurd hc.symm hk
          · exact hc
        · exact Or.inr
      by_cases hm : k ∈ rest.map Prod.fst
      · rw [if_pos (hiff.mpr hm)]
        simp [ih, hm]
      · rw [if_neg (fun hc => hm (hiff.mp hc))]
        simp [ih, hm]

theorem addToGroup_nodup_keys {α β : Type} [DecidableEq α]
    (groups : List (α × List β)) (k : α) (q : β)
    (h : (groups.map Prod.fst).Nodup) :
    ((addToGroup groups k q).map Prod.fst).Nodup := by
  rw [addToGroup_map_fst]
  by_cases hm : k ∈ groups.map Prod.fst
  · simpa [hm] using h
  · simp [hm, List.nodup_append, h]

theorem routePlaceholder_nodup_keys (ledger : List (List Char × List Char))
    (avail : List (List Char))
    (groups : List (List Char × List (List Char))) (p : List Char)
    (h : (groups.map Prod.fst).Nodup) :
    ((routePlaceholder ledger avail groups p).map Prod.fst).Nodup := by
  cases hx : extractToolCallIdFromPlaceholder p with
  | none =>
    have hred : routePlaceholder ledger avail groups p = groups := by
      simp [routePlaceholder, hx]
    rw [hred]; exact h
  | some tid =>
    cases hl : lookupA ledger tid with
    | some sk =>
      have hred : routePlaceholder ledger avail groups p
          = addToGroup groups sk p := by
        simp [routePlaceholder, hx, hl]
      rw [hred]
      exact addToGroup_nodup_keys groups sk p h
    | none =>
      cases avail with
      | nil =>
        have hred : routePlaceholder ledger [] groups p = groups := by
          simp [routePlaceholder, hx, hl]
        rw [hred]; exact h
      | cons k0 restAvail =>
        have hred : routePlaceholder ledger (k0 :: restAvail) groups p
            = addToGroup groups k0 p := by
          simp [routePlaceholder, hx, hl]
        rw [hred]
        exact addToGroup_nodup_keys groups k0 p h

theorem groupPlaceholdersByServer_nodup_keys
    (ledger : List (List Char × List Char)) (avail : List (List Char))
    (ps : List (List Char)) :
    ((groupPlaceholdersByServer ledger avail ps).map Prod.fst).Nodup := by
  suffices hgen : ∀ (l : List (List Char))
      (groups : List (List Char × List (List Char))),
      (groups.map Prod.fst).Nodup →
      ((l.foldl (routePlaceholder ledger avail) groups).map Prod.fst).Nodup by
    exact hgen ps [] (by simp)
  intro l
  induction l with
  | nil => intro groups hg; simpa using hg
  | cons q rest ih =>
    intro groups hg
    simp only [List.foldl_cons]
    exact ih _ (routePlaceholder_nodup_keys ledger avail groups q hg)

theorem batchKey_injective : Function.Injective batchKey := by
  intro i j h
  apply natRepr_injective
  exact List.append_cancel_left h

theorem batchDataFor_map_fst (ps : List (List Char)) :
    (batchDataFor ps).map Prod.fst = (List.range ps.length).map batchKey := by
  rw [← List.enum_map_fst ps, List.map_map]
  simp [batchDataFor, List.map_map]

theorem batchDataFor_keys_nodup (ps : List (List Char)) :
    ((batchDataFor ps).map Prod.fst).Nodup := by
  rw [batchDataFor_map_fst]
  exact List.Nodup.map batchKey_injective (List.nodup_range _)

theorem batchDataFor_map_snd (ps : List (List Char)) :
    (batchDataFor ps).map Prod.snd = ps.map wrapBraces := by
  conv_rhs => rw [← List.enum_map_snd ps]
  rw [List.map_map]
  simp [batchDataFor, List.map_map]

theorem filterMap_clientKey_eq_map (config : List (List Char × List Char)) :
    ∀ gs : List (List Char × List (List Char)),
      (∀ k ∈ gs.map Prod.fst, getClientKey config (some k) = some k) →
      (gs.filterMap (fun e =>
        match getClientKey config (some e.1) with
        | none => none
        | some clientKey => some (clientKey, batchDataFor e.2)))
        = gs.map (fun e => (e.1, batchDataFor e.2)) := by
  intro gs
  induction gs with
  | nil => intro _; rfl
  | cons g rest ih =>
    intro hc
    have hk := hc g.1 (by simp)
    simp only [List.filterMap_cons, hk, List.map_cons]
    rw [ih (fun k hkm => hc k (by simp [hkm]))]

/-- Claim C8. For each server that owns at least one placeholder in a
resolution attempt (and, as the session invariant guarantees, resolves to its
own client), exactly one batched resolution request is issued to that server:
the issued requests are in bijection with the server groups (one entry per
grouped server, with no duplicate server key), each request carries the whole
group's placeholders wrapped in braces, and the batch keys
`placeholder_0, placeholder_1, ...` are pairwise distinct within the batch
even when two placeholders have identical text. -/
theorem one_batched_request_per_server
    (config ledger : List (List Char × List Char))
    (avail : List (List Char)) (ps : List (List Char))
    (hc : ∀ k ∈ (groupPlaceholdersByServer ledger avail ps).map Prod.fst,
        getClientKey config (some k) = some k) :
    issuedBatchRequests config ledger avail ps
      = (groupPlaceholdersByServer ledger avail ps).map
          (fun e => (e.1, batchDataFor e.2))
    ∧ ((issuedBatchRequests config ledger avail ps).map Prod.fst).Nodup
    ∧ (∀ e ∈ issuedBatchRequests config ledger avail ps,
        (e.2.map Prod.fst).Nodup)
    ∧ ∀ e ∈ issuedBatchRequests config ledger avail ps,
        ∃ g, (e.1, g) ∈ groupPlaceholdersByServer ledger avail ps
          ∧ e.2.map Prod.snd = g.map wrapBraces := by
  have hIssued : issuedBatchRequests config ledger avail ps
      = (groupPlaceholdersByServer ledger avail ps).map
          (fun e => (e.1, batchDataFor e.2)) := by
    unfold issuedBatchRequests
    exact filterMap_clientKey_eq_map config _ hc
  refine ⟨hIssued, ?_, ?_, ?_⟩
  · rw [hIssued, List.map_map]
    have hcomp : (Prod.fst ∘ fun e : List Char × List (List Char) =>
        (e.1, batchDataFor e.2)) = Prod.fst := rfl
    rw [hcomp]
    exact groupPlaceholdersByServer_nodup_keys ledger avail ps
  · intro e he
    rw [hIssued] at he
    obtain ⟨g, hg, rfl⟩ := List.mem_map.mp he
    exact batchDataFor_keys_nodup g.2
  · intro e he
    rw [hIssued] at he
    obtain ⟨g, hg, rfl⟩ := List.mem_map.mp he
    exact ⟨g.2, by simpa using hg, batchDataFor_map_snd g.2⟩

/-- Witness for C8 with two servers and a duplicated placeholder text: `A`
owns two placeholders with identical text, `B` owns one; one request per
server is issued and the duplicate text still gets two distinct batch keys. -/
theorem one_batched_request_witness :
    (∀ k ∈ (groupPlaceholdersByServer
        [(("call_1".data), ("A".data)), (("call_2".data), ("B".data))] []
        [("call_1.0.x".data), ("call_1.0.x".data), ("call_2.0.y".data)]).map
          Prod.fst,
      getClientKey [(("A".data), ("u".data)), (("B".data), ("u".data))]
        (some k) = some k)
    ∧ issuedBatchRequests [(("A".data), ("u".data)), (("B".data), ("u".data))]
        [(("call_1".data), ("A".data)), (("call_2".data), ("B".data))] []
        [("call_1.0.x".data), ("call_1.0.x".data), ("call_2.0.y".data)]
      = (groupPlaceholdersByServer
          [(("call_1".data), ("A".data)), (("call_2".data), ("B".data))] []
          [("call_1.0.x".data), ("call_1.0.x".data), ("call_2.0.y".data)]).map
            (fun e => (e.1, batchDataFor e.2))
    ∧ ((issuedBatchRequests [(("A".data), ("u".data)), (("B".data), ("u".data))]
        [(("call_1".data), ("A".data)), (("call_2".data), ("B".data))] []
        [("call_1.0.x".data), ("call_1.0.x".data), ("call_2.0.y".data)]).map
          Prod.fst).Nodup
    ∧ ∀ e ∈ issuedBatchRequests
        [(("A".data), ("u".data)), (("B".data), ("u".data))]
        [(("call_1".data), ("A".data)), (("call_2".data), ("B".data))] []
        [("call_1.0.x".data), ("call_1.0.x".data), ("call_2.0.y".data)],
        (e.2.map Prod.fst).Nodup := by
  have hthm := one_batched_request_per_server
    [(("A".data), ("u".data)), (("B".data), ("u".data))]
    [(("call_1".data), ("A".data)), (("call_2".data), ("B".data))] []
    [("call_1.0.x".data), ("call_1.0.x".data), ("call_2.0.y".data)]
    (by decide)
  exact ⟨by decide, hthm.1, hthm.2.1, hthm.2.2.1⟩

end Mcpp
